import Mathlib

/-!
Verification model of the xpropagator satellite-propagation service core.

The definitions below are a shallow embedding of the Go sources:
* the reference-counted satellite registry (`internal/core/gc`, file with
  `SatEntry`, `Acquire`, `makeReleaser`, `evictLRUIfNeeded`, `sweeper`,
  `removeVictims`, `parseSatNum`),
* the DLL gate (`internal/core_helpers/core_helpers.go`, `WithDllCall`),
* the ephemeris streaming pipeline (`internal/core`, `runAnalytGenEphems`,
  `flatEphemsToEphemDataArr`, `buildEphemResponse`,
  `validateAnalytEphemRequest`, `getKnownTimeStep`) together with the
  native adapter wrapper `Sgp4GenEphems` (`internal/dllcore`).

Machine doubles (`float64`) are modelled as rationals: the control flow being
verified only copies, compares and adds these values.  `time.Time` values are
likewise modelled as rationals.  Go `int`/`int64`/`int32` are modelled as `Int`
(no arithmetic in the modelled paths can overflow 64 bits: satellite numbers
are bounded by 359999 and ref counts by the number of acquisitions).
-/

namespace XProp

/-! ### The satellite registry (package `gc`)

`GC.loaded` is a Go map `int64 -> *SatEntry`; it is modelled as an association
list with the key in the first component.  A Go map has no duplicate keys, so
theorems that need it take a `Nodup` hypothesis on the key list. -/

/-- Model of `SatEntry` (the registry's unit of accounting). -/
structure SatEntry where
  satNum : Int
  lastUsed : ℚ
  refs : Int
deriving DecidableEq, Repr

/-- Model of the registry map `GC.loaded : map[int64]*SatEntry`. -/
abbrev RegState := List (Int × SatEntry)

/-- Map lookup (`g.loaded[key]`). -/
def lookupEntry : RegState → Int → Option SatEntry
  | [], _ => none
  | p :: rest, key => if p.1 = key then some p.2 else lookupEntry rest key

/-- Map update of an existing key (in Go the entry is mutated through the
pointer stored in the map; here every pair carrying the key is rebound). -/
def updateEntry : RegState → Int → SatEntry → RegState
  | [], _, _ => []
  | p :: rest, key, e =>
    if p.1 = key then (key, e) :: updateEntry rest key e else p :: updateEntry rest key e

/-- Map deletion (`delete(g.loaded, key)`). -/
def eraseEntry : RegState → Int → RegState
  | [], _ => []
  | p :: rest, key =>
    if p.1 = key then eraseEntry rest key else p :: eraseEntry rest key

/-- The registry-lock critical section shared by both branches of `Acquire`
(lines 198-207 and 217-226 of the gc file): insert a fresh entry with
`refs = 1`, or bump `refs` and `lastUsed` of the existing one. -/
def acquireUpdate (s : RegState) (key satNum : Int) (now : ℚ) : RegState :=
  match lookupEntry s key with
  | none => (key, ⟨satNum, now, 1⟩) :: s
  | some e => updateEntry s key { e with refs := e.refs + 1, lastUsed := now }

/-- The body of the closure built by `makeReleaser`: decrement only when the
entry exists and `refs > 0` (an over-release is a no-op). -/
def releaseUpdate (s : RegState) (key : Int) (now : ℚ) : RegState :=
  match lookupEntry s key with
  | none => s
  | some e =>
    if 0 < e.refs then updateEntry s key { e with refs := e.refs - 1, lastUsed := now }
    else s

/-- An acquire / release history on the registry. -/
inductive GCEvent where
  | acquire (key satNum : Int) (now : ℚ)
  | release (key : Int) (now : ℚ)
deriving DecidableEq, Repr

def applyEvent (s : RegState) : GCEvent → RegState
  | .acquire key satNum now => acquireUpdate s key satNum now
  | .release key now => releaseUpdate s key now

/-- Run a history from the initial, empty registry (`make(map[int64]*SatEntry)`). -/
def runEvents (evs : List GCEvent) : RegState :=
  evs.foldl applyEvent []

/-- The ref count the registry associates to `key` (0 when absent). -/
def refsOf (s : RegState) (key : Int) : Int :=
  (lookupEntry s key).elim 0 SatEntry.refs

/-- One iteration of the loop body of `removeVictims`: under the per-key write
lock and the catalog lock, re-check `refs == 0` and only then delete; when the
re-check fails the victim is skipped silently.  (The native `Sgp4RemoveSat` /
`TleRemoveSat` calls do not touch the registry state.) -/
def removeVictimStep (s : RegState) (key : Int) : RegState :=
  match lookupEntry s key with
  | none => s
  | some e => if e.refs = 0 then eraseEntry s key else s

/-- `removeVictims` processes its victim list in order. -/
def removeVictims (s : RegState) (victims : List Int) : RegState :=
  victims.foldl removeVictimStep s

/-- The sweeper's candidate collection (`refs == 0 && now.Sub(lastUsed) > idleTTL`). -/
def sweepCollect (s : RegState) (now idleTTL : ℚ) : List Int :=
  (s.filter (fun p => p.2.refs = 0 ∧ idleTTL < now - p.2.lastUsed)).map Prod.fst

/-- One tick of the TTL sweeper: gather idle zero-ref keys, then remove them
through the double-checked `removeVictims`. -/
def sweepOnce (s : RegState) (now idleTTL : ℚ) : RegState :=
  removeVictims s (sweepCollect s now idleTTL)

/-- Candidate set of the LRU eviction: entries with `refs == 0`. -/
def zeroRefCandidates (s : RegState) : List (Int × SatEntry) :=
  s.filter (fun p => p.2.refs = 0)

/-- Comparison used by `sort.Slice(candidates, ...)`: ascending `lastUsed`. -/
def byLastUsed (a b : Int × SatEntry) : Prop :=
  a.2.lastUsed ≤ b.2.lastUsed

instance : DecidableRel byLastUsed :=
  fun a b => inferInstanceAs (Decidable (a.2.lastUsed ≤ b.2.lastUsed))

instance : IsTotal (Int × SatEntry) byLastUsed :=
  ⟨fun a b => le_total a.2.lastUsed b.2.lastUsed⟩

instance : IsTrans (Int × SatEntry) byLastUsed :=
  ⟨fun _ _ _ hab hbc => le_trans hab hbc⟩

/-- Model of `evictLRUIfNeeded(need)`.  `sort.Slice` is an arbitrary
(not necessarily stable) comparison sort; it is modelled by insertion sort,
which produces a `byLastUsed`-sorted permutation of the candidates, the only
property the source relies on.  The Go clamp `if excess > len(candidates)`
followed by taking `excess` victims is `take (min excess.toNat candidates.length)`
(note `0 < excess` on that path). -/
def evictLRUIfNeeded (s : RegState) (maxLoaded need : Int) : List Int :=
  let excess : Int := (s.length : Int) + need - maxLoaded
  if excess ≤ 0 then []
  else
    let candidates := zeroRefCandidates s
    if candidates = [] then []
    else
      let sorted := List.insertionSort byLastUsed candidates
      (sorted.take (min excess.toNat candidates.length)).map Prod.fst

/-! ### Registry lemmas -/

theorem lookupEntry_updateEntry (s : RegState) (key k : Int) (e : SatEntry) :
    lookupEntry (updateEntry s key e) k =
      if k = key then Option.map (fun _ => e) (lookupEntry s key) else lookupEntry s k := by
  induction s with
  | nil => simp [updateEntry, lookupEntry]
  | cons p rest ih =>
    simp only [updateEntry]
    by_cases h1 : p.1 = key
    · rw [if_pos h1]
      by_cases h2 : k = key
      · simp [lookupEntry, h1, h2, ih]
      · simp [lookupEntry, h1, h2, Ne.symm h2, ih]
    · rw [if_neg h1]
      by_cases h2 : k = key
      · subst h2
        simp [lookupEntry, h1, ih]
      · by_cases h3 : p.1 = k
        · simp [lookupEntry, h2, h3]
        · simp [lookupEntry, h2, h3, ih]

theorem lookupEntry_eraseEntry (s : RegState) (key k : Int) :
    lookupEntry (eraseEntry s key) k =
      if k = key then none else lookupEntry s k := by
  induction s with
  | nil => simp [eraseEntry, lookupEntry]
  | cons p rest ih =>
    simp only [eraseEntry]
    by_cases h1 : p.1 = key
    · rw [if_pos h1]
      by_cases h2 : k = key
      · subst h2
        simp [ih]
      · have : ¬p.1 = k := by rw [h1]; exact fun h => h2 h.symm
        simp [lookupEntry, h2, this, ih]
    · rw [if_neg h1]
      by_cases h2 : k = key
      · subst h2
        simp [lookupEntry, h1, ih]
      · by_cases h3 : p.1 = k
        · simp [lookupEntry, h2, h3]
        · simp [lookupEntry, h2, h3, ih]

theorem refsOf_acquireUpdate (s : RegState) (key satNum k : Int) (now : ℚ) :
    refsOf (acquireUpdate s key satNum now) k =
      if k = key then refsOf s key + 1 else refsOf s k := by
  cases h : lookupEntry s key with
  | none =>
    simp only [refsOf, acquireUpdate, h, lookupEntry]
    by_cases hk : k = key
    · subst hk
      simp [h]
    · have hk2 : ¬key = k := fun hh => hk hh.symm
      simp [hk, hk2]
  | some e =>
    simp only [refsOf, acquireUpdate, h, lookupEntry_updateEntry]
    by_cases hk : k = key
    · simp [hk, h]
    · simp [hk]

theorem refsOf_releaseUpdate (s : RegState) (key k : Int) (now : ℚ) :
    refsOf (releaseUpdate s key now) k =
      if k = key then
        (if 0 < refsOf s key then refsOf s key - 1 else refsOf s key)
      else refsOf s k := by
  cases h : lookupEntry s key with
  | none =>
    simp only [refsOf, releaseUpdate, h]
    by_cases hk : k = key
    · subst hk
      simp [h]
    · simp [hk]
  | some e =>
    simp only [refsOf, releaseUpdate, h]
    by_cases hr : 0 < e.refs
    · rw [if_pos hr, lookupEntry_updateEntry]
      by_cases hk : k = key
      · simp [hk, h, hr]
      · simp [hk]
    · rw [if_neg hr]
      by_cases hk : k = key
      · simp [hk, h, hr]
      · simp [hk]

/-- The registry invariant: every ref count is non-negative. -/
def goodState (s : RegState) : Prop := ∀ k : Int, 0 ≤ refsOf s k

theorem goodState_applyEvent {s : RegState} (hs : goodState s) (ev : GCEvent) :
    goodState (applyEvent s ev) := by
  intro k
  cases ev with
  | acquire key satNum now =>
    show 0 ≤ refsOf (acquireUpdate s key satNum now) k
    rw [refsOf_acquireUpdate]
    by_cases hk : k = key
    · rw [if_pos hk]
      have := hs key
      omega
    · rw [if_neg hk]
      exact hs k
  | release key now =>
    show 0 ≤ refsOf (releaseUpdate s key now) k
    rw [refsOf_releaseUpdate]
    by_cases hk : k = key
    · rw [if_pos hk]
      have := hs key
      split <;> omega
    · rw [if_neg hk]
      exact hs k

theorem goodState_foldl (evs : List GCEvent) :
    ∀ s : RegState, goodState s → goodState (evs.foldl applyEvent s) := by
  induction evs with
  | nil => intro s hs; exact hs
  | cons ev rest ih =>
    intro s hs
    exact ih (applyEvent s ev) (goodState_applyEvent hs ev)

theorem goodState_runEvents (evs : List GCEvent) : goodState (runEvents evs) := by
  apply goodState_foldl
  intro k
  show (0 : Int) ≤ refsOf [] k
  simp [refsOf, lookupEntry]

/-- `C1`: for every sequence of `Acquire` / release-closure invocations on any
key, the entry's `refs` count never becomes negative; and invoking the release
closure when `refs` is already `0` leaves `refs` at `0` (a no-op, not an
underflow). -/
theorem gc_refs_nonneg_and_release_noop (evs : List GCEvent) (k : Int) (t : ℚ) :
    0 ≤ refsOf (runEvents evs) k ∧
      (refsOf (runEvents evs) k = 0 →
        refsOf (runEvents (evs ++ [GCEvent.release k t])) k = 0) := by
  constructor
  · exact goodState_runEvents evs k
  · intro h0
    have hrun : runEvents (evs ++ [GCEvent.release k t]) =
        releaseUpdate (runEvents evs) k t := by
      unfold runEvents
      rw [List.foldl_append]
      rfl
    rw [hrun, refsOf_releaseUpdate, if_pos rfl, h0]
    norm_num

/-- Witness for `gc_refs_nonneg_and_release_noop`: after one acquire and one
release of key `1`, `refs = 0`, and a second (over-) release keeps it at `0`. -/
theorem gc_refs_nonneg_and_release_noop_witness :
    0 ≤ refsOf (runEvents [GCEvent.acquire 1 25544 0, GCEvent.release 1 2]) 1 ∧
      refsOf (runEvents ([GCEvent.acquire 1 25544 0, GCEvent.release 1 2] ++
        [GCEvent.release 1 3])) 1 = 0 := by
  have h := gc_refs_nonneg_and_release_noop
    [GCEvent.acquire 1 25544 0, GCEvent.release 1 2] 1 3
  exact ⟨h.1, h.2 (by decide)⟩

theorem lookup_removeVictimStep {s : RegState} {k : Int} {e : SatEntry}
    (hk : lookupEntry s k = some e) (hr : 0 < e.refs) (key : Int) :
    lookupEntry (removeVictimStep s key) k = some e := by
  cases h : lookupEntry s key with
  | none => simpa [removeVictimStep, h] using hk
  | some e2 =>
    simp only [removeVictimStep, h]
    by_cases hz : e2.refs = 0
    · rw [if_pos hz, lookupEntry_eraseEntry]
      by_cases hkk : k = key
      · subst hkk
        rw [hk] at h
        cases h
        omega
      · rw [if_neg hkk]
        exact hk
    · rw [if_neg hz]
      exact hk

theorem lookup_removeVictims {k : Int} {e : SatEntry} (victims : List Int) :
    ∀ {s : RegState}, lookupEntry s k = some e → 0 < e.refs →
      lookupEntry (removeVictims s victims) k = some e := by
  induction victims with
  | nil => intro s hk _; exact hk
  | cons v rest ih =>
    intro s hk hr
    exact ih (lookup_removeVictimStep hk hr v) hr

/-- `C2`: an entry whose `refs` count is positive is removed neither by the
double-checked removal used by the LRU eviction path (`removeVictims`, for any
victim list whatsoever) nor by a tick of the TTL sweeper: the `refs == 0`
re-check fails and the entry is skipped, left exactly as it was. -/
theorem removeVictims_preserves_inuse (s : RegState) (victims : List Int)
    (now idleTTL : ℚ) (k : Int) (e : SatEntry)
    (hk : lookupEntry s k = some e) (hr : 0 < e.refs) :
    lookupEntry (removeVictims s victims) k = some e ∧
      lookupEntry (sweepOnce s now idleTTL) k = some e := by
  refine ⟨lookup_removeVictims victims hk hr, ?_⟩
  exact lookup_removeVictims (sweepCollect s now idleTTL) hk hr

/-- Witness for `removeVictims_preserves_inuse`: a single in-use entry survives
both an explicit victim list naming it and an idle sweep far past its TTL. -/
theorem removeVictims_preserves_inuse_witness :
    lookupEntry (removeVictims [(1, ⟨25544, 0, 1⟩)] [1]) 1 = some ⟨25544, 0, 1⟩ ∧
      lookupEntry (sweepOnce [(1, ⟨25544, 0, 1⟩)] 100 1) 1 = some ⟨25544, 0, 1⟩ :=
  removeVictims_preserves_inuse [(1, ⟨25544, 0, 1⟩)] [1] 100 1 1 ⟨25544, 0, 1⟩
    (by decide) (by decide)

theorem eq_of_fst_eq_of_nodup :
    ∀ {l : List (Int × SatEntry)}, (l.map Prod.fst).Nodup →
      ∀ {p q : Int × SatEntry}, p ∈ l → q ∈ l → p.1 = q.1 → p = q := by
  intro l
  induction l with
  | nil => intro _ p q hp; cases hp
  | cons a t ih =>
    intro hn p q hp hq hfst
    rw [List.map_cons, List.nodup_cons] at hn
    rcases List.mem_cons.1 hp with hpa | hpt
    · rcases List.mem_cons.1 hq with hqa | hqt
      · rw [hpa, hqa]
      · exact absurd (hpa ▸ hfst ▸ List.mem_map_of_mem Prod.fst hqt) hn.1
    · rcases List.mem_cons.1 hq with hqa | hqt
      · exact absurd (hqa ▸ hfst ▸ List.mem_map_of_mem Prod.fst hpt) hn.1
      · exact ih hn.2 hpt hqt hfst

theorem zeroRefCandidates_sublist (s : RegState) : (zeroRefCandidates s).Sublist s :=
  List.filter_sublist s

theorem zeroRefCandidates_mem {s : RegState} {p : Int × SatEntry}
    (hp : p ∈ zeroRefCandidates s) : p ∈ s ∧ p.2.refs = 0 := by
  have := List.of_mem_filter hp
  exact ⟨(zeroRefCandidates_sublist s).mem hp, by simpa using this⟩

/-- `C3`: with `excess = size + need − maxLoaded`, `evictLRU(need)` selects no
victim when `excess ≤ 0`; otherwise it selects exactly
`min excess (number of zero-ref entries)` keys, every victim is a registry
entry with `refs == 0` (entries with `refs > 0` are never candidates), and the
selected candidates' `lastUsed` stamps are all `≤` every unselected
candidate's — i.e. the victims are the `refs == 0` entries with the `N`
smallest `lastUsed` timestamps. -/
theorem evictLRU_takes_n_smallest (s : RegState) (maxLoaded need : Int)
    (hn : (s.map Prod.fst).Nodup) :
    ((s.length : Int) + need - maxLoaded ≤ 0 → evictLRUIfNeeded s maxLoaded need = []) ∧
      (0 < (s.length : Int) + need - maxLoaded →
        (evictLRUIfNeeded s maxLoaded need).length =
          min ((s.length : Int) + need - maxLoaded).toNat (zeroRefCandidates s).length) ∧
      (∀ k ∈ evictLRUIfNeeded s maxLoaded need, ∃ e, (k, e) ∈ s ∧ e.refs = 0) ∧
      (∀ p ∈ zeroRefCandidates s, p.1 ∈ evictLRUIfNeeded s maxLoaded need →
        ∀ q ∈ zeroRefCandidates s, q.1 ∉ evictLRUIfNeeded s maxLoaded need →
          p.2.lastUsed ≤ q.2.lastUsed) := by
  classical
  set excess : Int := (s.length : Int) + need - maxLoaded with hexcess
  set cand := zeroRefCandidates s with hcand
  set sorted := List.insertionSort byLastUsed cand with hsorted
  set n : Nat := min excess.toNat cand.length with hnn
  have hperm : sorted.Perm cand := List.perm_insertionSort byLastUsed cand
  have hcn : (cand.map Prod.fst).Nodup :=
    List.Nodup.sublist (List.Sublist.map Prod.fst (zeroRefCandidates_sublist s)) hn
  by_cases hle : excess ≤ 0
  · refine ⟨fun _ => ?_, fun hpos => absurd hpos (by omega), ?_, ?_⟩
    · simp [evictLRUIfNeeded, ← hexcess, hle]
    · intro k hk
      simp [evictLRUIfNeeded, ← hexcess, hle] at hk
    · intro p _ hp
      simp [evictLRUIfNeeded, ← hexcess, hle] at hp
  · have hev : evictLRUIfNeeded s maxLoaded need =
        if cand = [] then [] else (sorted.take n).map Prod.fst := by
      simp [evictLRUIfNeeded, ← hexcess, hle, ← hcand, ← hsorted, ← hnn]
    by_cases hnil : cand = []
    · rw [hev, if_pos hnil]
      refine ⟨fun h => absurd h hle, fun _ => ?_, ?_, ?_⟩
      · simp [hnn, hnil]
      · intro k hk
        simp at hk
      · intro p hp hpev
        simp at hpev
    · rw [hev, if_neg hnil]
      have hslen : sorted.length = cand.length := hperm.length_eq
      have hnle : n ≤ sorted.length := by
        rw [hslen]
        exact le_trans (min_le_right _ _) le_rfl
      refine ⟨fun h => absurd h hle, fun _ => ?_, ?_, ?_⟩
      · rw [List.length_map, List.length_take, hslen]
        omega
      · intro k hk
        obtain ⟨p, hpmem, hpk⟩ := List.mem_map.1 hk
        have hpsorted : p ∈ sorted := List.mem_of_mem_take hpmem
        have hpcand : p ∈ cand := hperm.mem_iff.1 hpsorted
        obtain ⟨hps, hp0⟩ := zeroRefCandidates_mem hpcand
        exact ⟨p.2, by rwa [show (k, p.2) = p from by rw [← hpk]], hp0⟩
      · intro p hp hpev q hq hqev
        obtain ⟨p1, hp1mem, hp1k⟩ := List.mem_map.1 hpev
        have hp1cand : p1 ∈ cand := hperm.mem_iff.1 (List.mem_of_mem_take hp1mem)
        have hpp1 : p = p1 := eq_of_fst_eq_of_nodup hcn hp hp1cand hp1k.symm
        have hqsorted : q ∈ sorted := hperm.mem_iff.2 hq
        have hqdrop : q ∈ sorted.drop n := by
          rw [← List.take_append_drop n sorted] at hqsorted
          rcases List.mem_append.1 hqsorted with hqt | hqd
          · exact absurd (List.mem_map_of_mem Prod.fst hqt) hqev
          · exact hqd
        have hpw : List.Pairwise byLastUsed sorted := List.sorted_insertionSort byLastUsed cand
        rw [← List.take_append_drop n sorted] at hpw
        have hsplit := (List.pairwise_append.1 hpw).2.2
        have := hsplit p1 hp1mem q hqdrop
        rw [hpp1]
        exact this

/-- Concrete registry used to witness the LRU-eviction theorem: keys `1` and
`2` are idle (`refs = 0`, last used at times `5` and `3`), key `3` is in use. -/
def wS : RegState := [(1, ⟨101, 5, 0⟩), (2, ⟨102, 3, 0⟩), (3, ⟨103, 1, 1⟩)]

/-- Witness for `evictLRU_takes_n_smallest`: with `maxLoaded = 2` and
`need = 1` the excess is `2`, and the two idle entries are evicted in
`lastUsed` order (`2` before `1`); the in-use key `3` is untouched. -/
theorem evictLRU_takes_n_smallest_witness :
    (evictLRUIfNeeded wS 2 1).length =
        min ((wS.length : Int) + 1 - 2).toNat (zeroRefCandidates wS).length ∧
      evictLRUIfNeeded wS 2 1 = [2, 1] :=
  ⟨(evictLRU_takes_n_smallest wS 2 1 (by decide)).2.1 (by decide), by decide⟩

/-! ### Catalog-number parsing (`parseSatNum`, TLE line 1 columns 3-7) -/

/-- `unicode.IsSpace`, as used by `strings.TrimSpace`. -/
def isGoSpace (c : Char) : Bool :=
  let n := c.toNat
  (decide (9 ≤ n) && decide (n ≤ 13)) || decide (n = 32) || decide (n = 133) ||
    decide (n = 160) || decide (n = 5760) ||
    (decide (8192 ≤ n) && decide (n ≤ 8202)) || decide (n = 8232) ||
    decide (n = 8233) || decide (n = 8239) || decide (n = 8287) || decide (n = 12288)

/-- `strings.TrimSpace`. -/
def trimSpaceList (l : List Char) : List Char :=
  ((l.dropWhile isGoSpace).reverse.dropWhile isGoSpace).reverse

/-- Base-10 value of a digit string. -/
def digitsVal (l : List Char) : Int :=
  l.foldl (fun acc c => acc * 10 + ((c.toNat : Int) - 48)) 0

/-- Go's `strconv.Atoi` (base-10 `ParseInt`): an optional single `+` or `-`
sign followed by at least one ASCII digit, nothing else.  Underscores are
rejected at base 10, and the 64-bit overflow check is not modelled because
both call sites in `parseSatNum` pass at most five characters. -/
def goAtoi (l : List Char) : Option Int :=
  match l with
  | [] => none
  | c :: rest =>
    if c = '+' then
      if rest ≠ [] ∧ rest.all Char.isDigit then some (digitsVal rest) else none
    else if c = '-' then
      if rest ≠ [] ∧ rest.all Char.isDigit then some (-(digitsVal rest)) else none
    else
      if (c :: rest).all Char.isDigit then some (digitsVal (c :: rest)) else none

/-- The Alpha-5 letter check: `A`-`Z` excluding `I` and `O`. -/
def validAlpha5Letter (letter : Char) : Bool :=
  decide ('A' ≤ letter) && decide (letter ≤ 'Z') &&
    !(decide (letter = 'I')) && !(decide (letter = 'O'))

def msgLineLen : String := "invalid TLE first line length"
def msgSatnumLen : String := "invalid satnum length"
def msgBadFormat : String := "parse satNum: invalid format"

/-- The Alpha-5 block of `parseSatNum` (lines 393-410): on a valid letter,
parse the remaining four characters with `Atoi`, range-check, and decode.
All failing sub-checks fall through to the single final `invalid format`
error, which this model returns directly (the formatted payloads of the Go
error strings are dropped). -/
def alpha5Try (s : List Char) : Except String Int :=
  match s with
  | [] => .error msgBadFormat
  | letter :: digits =>
    if validAlpha5Letter letter then
      match goAtoi digits with
      | some num =>
        if 0 ≤ num ∧ num ≤ 9999 then
          let satnum := ((letter.toNat : Int) - 65 + 10) * 10000 + num
          if 100000 ≤ satnum ∧ satnum ≤ 359999 then .ok satnum
          else .error msgBadFormat
        else .error msgBadFormat
      | none => .error msgBadFormat
    else .error msgBadFormat

/-- `parseSatNum` on TLE line 1: slice columns 3-7 (`l1[2:7]`), trim, try the
legacy numeric form, then Alpha-5. -/
def parseSatNum (l1 : List Char) : Except String Int :=
  if l1.length < 7 then .error msgLineLen
  else
    let s := trimSpaceList ((l1.drop 2).take 5)
    if s.length ≠ 5 then .error msgSatnumLen
    else
      match goAtoi s with
      | some n => if 1 ≤ n ∧ n ≤ 99999 then .ok n else alpha5Try s
      | none => alpha5Try s

/-! ### Lemmas about digit strings and `goAtoi` -/

theorem isDigit_toNat {c : Char} (h : c.isDigit = true) : 48 ≤ c.toNat ∧ c.toNat ≤ 57 := by
  simp [Char.isDigit] at h
  obtain ⟨h1, h2⟩ := h
  exact ⟨UInt32.le_toNat_of_le (by decide) h1, UInt32.toNat_le_of_le (by decide) h2⟩

theorem upper_toNat {c : Char} (h1 : 'A' ≤ c) (h2 : c ≤ 'Z') : 65 ≤ c.toNat ∧ c.toNat ≤ 90 := by
  rw [Char.le_def] at h1 h2
  exact ⟨UInt32.le_toNat_of_le (by decide) h1, UInt32.toNat_le_of_le (by decide) h2⟩

theorem digitsVal_foldl_acc (l : List Char) :
    ∀ acc : Int,
      l.foldl (fun acc c => acc * 10 + ((c.toNat : Int) - 48)) acc =
        acc * 10 ^ l.length + digitsVal l := by
  induction l with
  | nil => intro acc; simp [digitsVal]
  | cons c t ih =>
    intro acc
    simp only [List.foldl_cons, List.length_cons]
    rw [ih]
    simp only [digitsVal, List.foldl_cons]
    rw [show ((0 : Int) * 10 + ((c.toNat : Int) - 48)) = ((c.toNat : Int) - 48) from by ring]
    rw [ih ((c.toNat : Int) - 48)]
    rw [show List.foldl (fun acc c => acc * 10 + ((c.toNat : Int) - 48)) 0 t = digitsVal t from rfl]
    ring

theorem digitsVal_bounds {l : List Char} (h : l.all Char.isDigit = true) :
    0 ≤ digitsVal l ∧ digitsVal l < 10 ^ l.length := by
  induction l with
  | nil => simp [digitsVal]
  | cons c t ih =>
    rw [List.all_cons, Bool.and_eq_true] at h
    obtain ⟨hd, ht⟩ := ih h.2
    obtain ⟨hc1, hc2⟩ := isDigit_toNat h.1
    have hcons : digitsVal (c :: t) = ((c.toNat : Int) - 48) * 10 ^ t.length + digitsVal t := by
      rw [digitsVal, List.foldl_cons, show ((0 : Int) * 10 + ((c.toNat : Int) - 48)) =
        ((c.toNat : Int) - 48) from by ring, digitsVal_foldl_acc]
    have hdig : (0 : Int) ≤ (c.toNat : Int) - 48 ∧ ((c.toNat : Int) - 48) ≤ 9 := by
      omega
    constructor
    · rw [hcons]
      have hp : (0 : Int) ≤ 10 ^ t.length := by positivity
      nlinarith [hdig.1, hd, hp]
    · rw [hcons, List.length_cons, pow_succ]
      nlinarith [hdig.2, ht, show (0:Int) < 10 ^ t.length from by positivity]

theorem goAtoi_of_all_digits {l : List Char} (hne : l ≠ []) (h : l.all Char.isDigit = true) :
    goAtoi l = some (digitsVal l) := by
  cases l with
  | nil => cases hne rfl
  | cons c rest =>
    rw [List.all_cons, Bool.and_eq_true] at h
    have hplus : ¬c = '+' := by
      intro hh
      rw [hh] at h
      exact absurd h.1 (by decide)
    have hminus : ¬c = '-' := by
      intro hh
      rw [hh] at h
      exact absurd h.1 (by decide)
    simp [goAtoi, hplus, hminus, List.all_cons, h.1, h.2]

theorem goAtoi_some_cases {l : List Char} {n : Int} (h : goAtoi l = some n) :
    (l ≠ [] ∧ l.all Char.isDigit = true ∧ n = digitsVal l) ∨
      (∃ t, l = '+' :: t ∧ t ≠ [] ∧ t.all Char.isDigit = true ∧ n = digitsVal t) ∨
      (∃ t, l = '-' :: t ∧ t ≠ [] ∧ t.all Char.isDigit = true ∧ n = -digitsVal t) := by
  cases l with
  | nil => simp [goAtoi] at h
  | cons c rest =>
    simp only [goAtoi] at h
    split_ifs at h with h1 h2 h3 h4 h5
    · exact Or.inr (Or.inl ⟨rest, by rw [h1], h2.1, h2.2, (Option.some.inj h).symm⟩)
    · exact Or.inr (Or.inr ⟨rest, by rw [h3], h4.1, h4.2, (Option.some.inj h).symm⟩)
    · exact Or.inl ⟨List.cons_ne_nil c rest, h5, (Option.some.inj h).symm⟩

theorem upperVal_of_validAlpha5 {c : Char} (hc : validAlpha5Letter c = true) :
    65 ≤ c.toNat ∧ c.toNat ≤ 90 := by
  simp only [validAlpha5Letter, Bool.and_eq_true, decide_eq_true_eq] at hc
  exact upper_toNat hc.1.1.1 hc.1.1.2

theorem alpha5Try_ok {c : Char} {d : List Char} (hc : validAlpha5Letter c = true)
    (hd : d.all Char.isDigit = true) (hlen : d.length = 4) :
    alpha5Try (c :: d) = .ok (((c.toNat : Int) - 65 + 10) * 10000 + digitsVal d) := by
  obtain ⟨hA, hZ⟩ := upperVal_of_validAlpha5 hc
  have hdb := digitsVal_bounds hd
  have hlt : digitsVal d < 10000 := by
    have := hdb.2
    rw [hlen] at this
    norm_num at this
    exact this
  have hne : d ≠ [] := by
    intro hh
    rw [hh] at hlen
    simp at hlen
  simp only [alpha5Try, if_pos hc, goAtoi_of_all_digits hne hd]
  rw [if_pos ⟨hdb.1, by omega⟩, if_pos (by constructor <;> omega)]

theorem goAtoi_plus {d : List Char} (hne : d ≠ []) (hd : d.all Char.isDigit = true) :
    goAtoi ('+' :: d) = some (digitsVal d) := by
  simp [goAtoi, hne, hd]

theorem goAtoi_minus {d : List Char} (hne : d ≠ []) (hd : d.all Char.isDigit = true) :
    goAtoi ('-' :: d) = some (-digitsVal d) := by
  simp [goAtoi, hne, hd]

theorem validAlpha5_not_digit {c : Char} (hc : validAlpha5Letter c = true) :
    c.isDigit = false := by
  obtain ⟨h65, _⟩ := upperVal_of_validAlpha5 hc
  by_contra hdig
  rw [Bool.not_eq_false] at hdig
  obtain ⟨_, h57⟩ := isDigit_toNat hdig
  omega

theorem validAlpha5_ne_plus {c : Char} (hc : validAlpha5Letter c = true) : ¬c = '+' := by
  obtain ⟨h65, _⟩ := upperVal_of_validAlpha5 hc
  intro hh
  rw [hh] at h65
  exact absurd h65 (by decide)

theorem validAlpha5_ne_minus {c : Char} (hc : validAlpha5Letter c = true) : ¬c = '-' := by
  obtain ⟨h65, _⟩ := upperVal_of_validAlpha5 hc
  intro hh
  rw [hh] at h65
  exact absurd h65 (by decide)

theorem goAtoi_none_of_letter {c : Char} {d : List Char}
    (hc : validAlpha5Letter c = true) : goAtoi (c :: d) = none := by
  simp [goAtoi, validAlpha5_ne_plus hc, validAlpha5_ne_minus hc, validAlpha5_not_digit hc]

theorem alpha5Try_plus {c : Char} {d : List Char} (hc : validAlpha5Letter c = true)
    (hd : d.all Char.isDigit = true) (hlen : d.length = 3) :
    alpha5Try (c :: '+' :: d) = .ok (((c.toNat : Int) - 65 + 10) * 10000 + digitsVal d) := by
  obtain ⟨hA, hZ⟩ := upperVal_of_validAlpha5 hc
  have hdb := digitsVal_bounds hd
  have hlt : digitsVal d < 1000 := by
    have := hdb.2
    rw [hlen] at this
    norm_num at this
    exact this
  have hne : d ≠ [] := by
    intro hh
    rw [hh] at hlen
    simp at hlen
  simp only [alpha5Try, if_pos hc, goAtoi_plus hne hd]
  rw [if_pos ⟨hdb.1, by omega⟩, if_pos (by constructor <;> omega)]

theorem alpha5Try_minus_zero {c : Char} {d : List Char} (hc : validAlpha5Letter c = true)
    (hd : d.all Char.isDigit = true) (hlen : d.length = 3) (h0 : digitsVal d = 0) :
    alpha5Try (c :: '-' :: d) = .ok (((c.toNat : Int) - 65 + 10) * 10000) := by
  obtain ⟨hA, hZ⟩ := upperVal_of_validAlpha5 hc
  have hne : d ≠ [] := by
    intro hh
    rw [hh] at hlen
    simp at hlen
  simp only [alpha5Try, if_pos hc, goAtoi_minus hne hd, h0, neg_zero, add_zero]
  rw [if_pos (by norm_num : (0 : Int) ≤ 0 ∧ (0 : Int) ≤ 9999),
    if_pos (by constructor <;> omega)]

theorem alpha5Try_err_head {x : Char} {t : List Char} (hx : validAlpha5Letter x = false) :
    alpha5Try (x :: t) = .error msgBadFormat := by
  simp [alpha5Try, hx]

theorem dropWhile_isGoSpace_eq_self {l : List Char} (h : ∀ c ∈ l, isGoSpace c = false) :
    l.dropWhile isGoSpace = l := by
  cases l with
  | nil => rfl
  | cons a t =>
    exact List.dropWhile_cons_of_neg (by simp [h a (List.mem_cons_self a t)])

theorem trimSpaceList_eq_self {l : List Char} (h : ∀ c ∈ l, isGoSpace c = false) :
    trimSpaceList l = l := by
  unfold trimSpaceList
  rw [dropWhile_isGoSpace_eq_self h,
    dropWhile_isGoSpace_eq_self (fun c hc => h c (List.mem_reverse.1 hc)),
    List.reverse_reverse]

theorem parseSatNum_cons2 (c0 c1 : Char) (s rest : List Char) (h5 : s.length = 5)
    (hw : ∀ c ∈ s, isGoSpace c = false) :
    parseSatNum (c0 :: c1 :: (s ++ rest)) =
      (match goAtoi s with
       | some n => if 1 ≤ n ∧ n ≤ 99999 then Except.ok n else alpha5Try s
       | none => alpha5Try s) := by
  have hlen : ¬(c0 :: c1 :: (s ++ rest)).length < 7 := by
    simp [h5]
  have htake : ((c0 :: c1 :: (s ++ rest)).drop 2).take 5 = s := by
    simp only [List.drop_succ_cons, List.drop_zero]
    exact List.take_left' h5
  simp only [parseSatNum, if_neg hlen, htake, trimSpaceList_eq_self hw,
    if_neg (show ¬s.length ≠ 5 from by simp [h5])]

theorem alpha5Try_err_of_shapes (s : List Char) (h5 : s.length = 5)
    (hb : ¬∃ c d, s = c :: d ∧ validAlpha5Letter c = true ∧ d.all Char.isDigit = true)
    (hp : ¬∃ c d, s = c :: '+' :: d ∧ validAlpha5Letter c = true ∧ d.all Char.isDigit = true)
    (hm : ¬∃ c d, s = c :: '-' :: d ∧ validAlpha5Letter c = true ∧
      d.all Char.isDigit = true ∧ digitsVal d = 0) :
    alpha5Try s = .error msgBadFormat := by
  cases s with
  | nil => simp at h5
  | cons x t =>
    by_cases hx : validAlpha5Letter x = true
    · cases hgt : goAtoi t with
      | none => simp [alpha5Try, hx, hgt]
      | some m =>
        rcases goAtoi_some_cases hgt with ⟨htne, htall, hmv⟩ | ⟨u, htu, hune, huall, hmv⟩ |
          ⟨u, htu, hune, huall, hmv⟩
        · exact absurd ⟨x, t, rfl, hx, htall⟩ hb
        · exact absurd ⟨x, u, by rw [htu], hx, huall⟩ hp
        · by_cases hm0 : digitsVal u = 0
          · exact absurd ⟨x, u, by rw [htu], hx, huall, hm0⟩ hm
          · have hub := digitsVal_bounds huall
            have hneg : ¬(0 ≤ m ∧ m ≤ 9999) := by
              rw [hmv]
              intro hcon
              omega
            simp [alpha5Try, hx, hgt, hneg]
    · rw [Bool.not_eq_true] at hx
      exact alpha5Try_err_head hx

/-- `C4` counterexample: the field `+1234` (TLE line 1 columns 3-7) is neither
a legacy 5-digit string (it contains a non-digit) nor an Alpha-5 string
(`+` is not a letter `A`-`Z`), yet `parseSatNum` accepts it with value `1234`
because Go's `strconv.Atoi` tolerates a leading sign — refuting "yields a hard
parse error for every other input". -/
theorem parseSatNum_plus_sign_accepted :
    parseSatNum (("1 +1234").toList) = .ok 1234 ∧
      (("+1234").toList.all Char.isDigit) = false ∧
      validAlpha5Letter '+' = false :=
  ⟨rfl, rfl, rfl⟩

/-- `C4` (amended): on a 5-character whitespace-free field, `parseSatNum`
returns the numeric value of every legacy 5-digit string with value 1-99999,
decodes every Alpha-5 string as `(letter − 'A' + 10)·10000 + digits`, and it
also accepts the sign forms admitted by Go's `strconv.Atoi`: `+` followed by
four digits of value ≥ 1, a valid letter followed by `+` and three digits, and
a valid letter followed by `-` and three digits of value 0; every other input
yields a hard parse error. -/
theorem parseSatNum_amended (c0 c1 : Char) (s rest : List Char) (h5 : s.length = 5)
    (hw : ∀ c ∈ s, isGoSpace c = false) :
    (s.all Char.isDigit = true → 1 ≤ digitsVal s →
      parseSatNum (c0 :: c1 :: (s ++ rest)) = .ok (digitsVal s)) ∧
      (∀ c d, s = c :: d → validAlpha5Letter c = true → d.all Char.isDigit = true →
        parseSatNum (c0 :: c1 :: (s ++ rest)) =
          .ok (((c.toNat : Int) - 65 + 10) * 10000 + digitsVal d)) ∧
      (∀ d, s = '+' :: d → d.all Char.isDigit = true → 1 ≤ digitsVal d →
        parseSatNum (c0 :: c1 :: (s ++ rest)) = .ok (digitsVal d)) ∧
      (∀ c d, s = c :: '+' :: d → validAlpha5Letter c = true → d.all Char.isDigit = true →
        parseSatNum (c0 :: c1 :: (s ++ rest)) =
          .ok (((c.toNat : Int) - 65 + 10) * 10000 + digitsVal d)) ∧
      (∀ c d, s = c :: '-' :: d → validAlpha5Letter c = true → d.all Char.isDigit = true →
        digitsVal d = 0 →
        parseSatNum (c0 :: c1 :: (s ++ rest)) = .ok (((c.toNat : Int) - 65 + 10) * 10000)) ∧
      (¬(s.all Char.isDigit = true ∧ 1 ≤ digitsVal s) →
        (¬∃ c d, s = c :: d ∧ validAlpha5Letter c = true ∧ d.all Char.isDigit = true) →
        (¬∃ d, s = '+' :: d ∧ d.all Char.isDigit = true ∧ 1 ≤ digitsVal d) →
        (¬∃ c d, s = c :: '+' :: d ∧ validAlpha5Letter c = true ∧ d.all Char.isDigit = true) →
        (¬∃ c d, s = c :: '-' :: d ∧ validAlpha5Letter c = true ∧ d.all Char.isDigit = true ∧
          digitsVal d = 0) →
        parseSatNum (c0 :: c1 :: (s ++ rest)) = .error msgBadFormat) := by
  have hf := parseSatNum_cons2 c0 c1 s rest h5 hw
  refine ⟨?_, ?_, ?_, ?_, ?_, ?_⟩
  · intro hall h1
    have hne : s ≠ [] := by
      intro hh
      rw [hh] at h5
      simp at h5
    have hbnd := digitsVal_bounds hall
    have hlt : digitsVal s < 100000 := by
      have := hbnd.2
      rw [h5] at this
      norm_num at this
      exact this
    simp only [hf, goAtoi_of_all_digits hne hall]
    rw [if_pos ⟨h1, by omega⟩]
  · intro c d hsd hc hd
    subst hsd
    have hd4 : d.length = 4 := by simpa using h5
    simp only [hf, goAtoi_none_of_letter hc]
    exact alpha5Try_ok hc hd hd4
  · intro d hsd hd h1
    subst hsd
    have hd4 : d.length = 4 := by simpa using h5
    have hne : d ≠ [] := by
      intro hh
      rw [hh] at hd4
      simp at hd4
    have hbnd := digitsVal_bounds hd
    have hlt : digitsVal d < 10000 := by
      have := hbnd.2
      rw [hd4] at this
      norm_num at this
      exact this
    simp only [hf, goAtoi_plus hne hd]
    rw [if_pos ⟨h1, by omega⟩]
  · intro c d hsd hc hd
    subst hsd
    have hd3 : d.length = 3 := by simpa using h5
    simp only [hf, goAtoi_none_of_letter hc]
    exact alpha5Try_plus hc hd hd3
  · intro c d hsd hc hd h0
    subst hsd
    have hd3 : d.length = 3 := by simpa using h5
    simp only [hf, goAtoi_none_of_letter hc]
    exact alpha5Try_minus_zero hc hd hd3 h0
  · intro ha hb hc3 hp hm
    rw [hf]
    cases hg : goAtoi s with
    | none =>
      simp only []
      exact alpha5Try_err_of_shapes s h5 hb hp hm
    | some n =>
      simp only []
      rcases goAtoi_some_cases hg with ⟨hne, hall, hnv⟩ | ⟨t, hst, htne, htall, hnv⟩ |
        ⟨t, hst, htne, htall, hnv⟩
      · have h1 : ¬1 ≤ digitsVal s := fun hh => ha ⟨hall, hh⟩
        rw [if_neg (by intro hcon; rw [hnv] at hcon; exact h1 hcon.1)]
        exact alpha5Try_err_of_shapes s h5 hb hp hm
      · have h1 : ¬1 ≤ digitsVal t := fun hh => hc3 ⟨t, hst, htall, hh⟩
        rw [if_neg (by intro hcon; rw [hnv] at hcon; exact h1 hcon.1)]
        exact alpha5Try_err_of_shapes s h5 hb hp hm
      · have hbnd := digitsVal_bounds htall
        rw [if_neg (by intro hcon; rw [hnv] at hcon; omega)]
        exact alpha5Try_err_of_shapes s h5 hb hp hm

/-- Witness for `parseSatNum_amended`: the Alpha-5 clause decodes the spec's
own example `A0001` (in the line prefix `1 A0001`) to `100001`. -/
theorem parseSatNum_amended_witness :
    parseSatNum (("1 A0001").toList) = .ok 100001 := by
  have h := (parseSatNum_amended (Char.ofNat 49) (Char.ofNat 32) (("A0001").toList) []
    (by decide) (by decide)).2.1 (Char.ofNat 65) (("0001").toList) (by decide)
    (by decide) (by decide)
  have h2 : (Char.ofNat 49) :: (Char.ofNat 32) :: ((("A0001").toList) ++ []) =
      ("1 A0001").toList := by decide
  rw [h2] at h
  rw [h]
  rfl

/-! ### The DLL gate (`core_helpers.WithDllCall`)

The gate is the buffered channel `gate.ch` of capacity `cap`; `held` is the
number of tokens currently in the channel (permits taken).  The guarded
function `call` is modelled by its outcome: `some rc` when it returns the
return code `rc`, `none` when it panics (control leaves `WithDllCall` by
unwinding).  `cancelled` records that the `select` took the `ctx.Done()`
branch.  `lastErr` is the message `dllcore.GetLastErrMsg()` would produce
under `errMu` after the call. -/

structure GateState where
  cap : Nat
  held : Nat
deriving DecidableEq, Repr

inductive DllOutcome where
  /-- The `ctx.Done()` branch of the `select`: `ctx.Err()` is returned. -/
  | cancelledOut
  /-- `rc = 0`: `WithDllCall` returns `nil`. -/
  | okOut
  /-- `rc ≠ 0`: `WithDllCall` returns the error `rc=<rc>: <msg>`. -/
  | errOut (rc : Int) (msg : String)
  /-- `call()` panicked; `WithDllCall` never returns normally. -/
  | fault
deriving DecidableEq, Repr

/-- Model of `WithDllCall` (core_helpers.go lines 81-100).  The result records
the gate state on exit, the outcome, and whether `call` was invoked.  The
release `<-g.ch` is written *after* `call()` with no `defer`, so on a panic
the permit count stays incremented. -/
def withDllCall (cancelled : Bool) (g : GateState) (call : Option Int)
    (lastErr : String) : GateState × DllOutcome × Bool :=
  if cancelled then (g, .cancelledOut, false)
  else
    let g1 : GateState := { g with held := g.held + 1 }
    match call with
    | none => (g1, .fault, true)
    | some rc =>
      let g2 : GateState := { g1 with held := g1.held - 1 }
      if rc ≠ 0 then (g2, .errOut rc lastErr, true) else (g2, .okOut, true)

/-- `C5` (code bug at the panic clause): on the cancellation branch
`WithDllCall` fails with the cancellation outcome without invoking `fn` and
without touching the gate, and when `fn` returns `rc ≠ 0` the permit is
released and the error carries `rc` and the fetched last-error message — but
when `fn` panics the permit is NOT released (`<-g.ch` is not deferred), so the
gate permit count stays at 1 instead of returning to 0. -/
theorem withDllCall_fault_leaks_permit :
    withDllCall true ⟨1, 0⟩ (some 0) ("boom") = (⟨1, 0⟩, .cancelledOut, false) ∧
      withDllCall false ⟨1, 0⟩ (some 0) ("boom") = (⟨1, 0⟩, .okOut, true) ∧
      withDllCall false ⟨1, 0⟩ (some 7) ("boom") = (⟨1, 0⟩, .errOut 7 ("boom"), true) ∧
      withDllCall false ⟨1, 0⟩ none ("boom") = (⟨1, 1⟩, .fault, true) :=
  ⟨rfl, rfl, rfl, rfl⟩

/-! ### Time grids, step resolution and request validation (`internal/core`)

The proto `oneof` field `EphemTimeGrid.TimeStepType` is an `Option` of three
variants.  UTC timestamps only matter to the modelled control flow through
nil-ness and through `UtcToDS50`, so they are carried as rationals. -/

inductive TimeStepType where
  | dynamicStep (b : Bool)
  | knownPeriod (iso : String)
  | knownDs50 (v : ℚ)
deriving DecidableEq, Repr

structure EphemTimeGrid where
  timeStartUtc : Option ℚ
  timeStartDs50 : ℚ
  timeEndUtc : Option ℚ
  timeEndDs50 : ℚ
  timeStepType : Option TimeStepType
deriving DecidableEq, Repr

/-- Proto getter `GetKnownTimeStepPeriod` (empty string unless that variant). -/
def getKnownTimeStepPeriodField (g : EphemTimeGrid) : String :=
  match g.timeStepType with
  | some (.knownPeriod s) => s
  | _ => ""

/-- Proto getter `GetKnownTimeStepDs50` (zero unless that variant). -/
def getKnownTimeStepDs50Field (g : EphemTimeGrid) : ℚ :=
  match g.timeStepType with
  | some (.knownDs50 v) => v
  | _ => 0

/-- `isDynamicTimeStep`: the type assertion succeeds and the flag is set. -/
def isDynamicTimeStep (g : EphemTimeGrid) : Bool :=
  match g.timeStepType with
  | some (.dynamicStep b) => b
  | _ => false

/-- Outcome of `getKnownTimeStep`: a step in minutes, or a Go panic. -/
inductive StepOutcome where
  | value (v : ℚ)
  | fault
deriving DecidableEq, Repr

/-- Model of `getKnownTimeStep` (lines 173-192).  `durParse` abstracts the
external `duration.Parse` composed with `ToTimeDuration().Minutes()` from the
third-party `sosodev/duration` package: `none` models a parse error, in which
case the source executes `panic(err)`.  A `KnownTimeStepDs50` is converted to
minutes by `× 1440`; any other variant (including an absent one) yields 0. -/
def getKnownTimeStep (durParse : String → Option ℚ) (g : EphemTimeGrid) : StepOutcome :=
  match g.timeStepType with
  | some (.knownPeriod s) =>
    match durParse s with
    | none => .fault
    | some minutes => .value minutes
  | some (.knownDs50 v) => .value (v * 1440)
  | _ => .value 0

/-- The step selection in `runAnalytGenEphems` (lines 204-209): dynamic grids
use the sentinel −1, otherwise `getKnownTimeStep` decides. -/
def chooseTimeStep (durParse : String → Option ℚ) (g : EphemTimeGrid) : StepOutcome :=
  if isDynamicTimeStep g then .value (-1) else getKnownTimeStep durParse g

/-- The sentinel replacement inside `dllcore.Sgp4GenEphems` (lines 832-834):
`timeStep == -1` becomes the engine constant `DYN_SS_BASIC` (abstracted as
`dynSS`), every other value is passed through. -/
def effectiveStep (dynSS t : ℚ) : ℚ :=
  if t = -1 then dynSS else t

structure Satellite where
  tleLn1 : String
  tleLn2 : String
deriving DecidableEq, Repr

structure EphemTask where
  taskId : String
  timeGrid : Option EphemTimeGrid
  sat : Option Satellite
deriving DecidableEq, Repr

structure EphemRequest where
  reqId : String
  ephemType : Int
  commonTimeGrid : Option EphemTimeGrid
  tasks : List EphemTask
deriving DecidableEq, Repr

/-- `dllcore.EciEphemType = iota + 1`. -/
def eciEphemType : Int := 1
/-- `dllcore.J2KEphemType`. -/
def j2kEphemType : Int := 2

def msgNoSat : String := "task must include a satellite"
def msgNoLn1 : String := "satellite is missing TLE line 1"
def msgNoLn2 : String := "satellite is missing TLE line 2"
def msgStartConflict : String := "invalid grid: start time conflict"
def msgEndConflict : String := "invalid configuration: end time conflict"
def msgStepConflict : String := "invalid configuration: time step conflict"
def msgNoTasks : String := "request must have at least one task"
def msgBadEphemType : String := "invalid ephemerides type"
def msgNoGrid : String := "task must have its own time grid"

/-- `validateSatellite` (core.go lines 46-58). -/
def validateSatellite (sat : Option Satellite) : Except String Unit :=
  match sat with
  | none => .error msgNoSat
  | some s =>
    if s.tleLn1 = ("") then .error msgNoLn1
    else if s.tleLn2 = ("") then .error msgNoLn2
    else .ok ()

/-- The `validateGrid` closure of `validateAnalytEphemRequest` (lines 273-285).
Error payload texts are abbreviated. -/
def validateGrid (g : EphemTimeGrid) : Except String Unit :=
  if g.timeStartUtc ≠ none ∧ g.timeStartDs50 ≠ 0 then .error msgStartConflict
  else if g.timeEndUtc ≠ none ∧ g.timeEndDs50 ≠ 0 then .error msgEndConflict
  else if getKnownTimeStepPeriodField g ≠ ("") ∧ getKnownTimeStepDs50Field g ≠ 0 then
    .error msgStepConflict
  else .ok ()

/-- The per-task loop of `validateAnalytEphemRequest` (lines 301-313); the
`task %d:` index prefix of the wrapped errors is dropped. -/
def validateTasksFrom (common : Option EphemTimeGrid) : List EphemTask → Except String Unit
  | [] => .ok ()
  | task :: rest =>
    match validateSatellite task.sat with
    | .error e => .error e
    | .ok _ =>
      if common = none ∧ task.timeGrid = none then .error msgNoGrid
      else
        match task.timeGrid with
        | some g =>
          match validateGrid g with
          | .error e => .error e
          | .ok _ => validateTasksFrom common rest
        | none => validateTasksFrom common rest

/-- Model of `validateAnalytEphemRequest` (lines 272-316). -/
def validateAnalytEphemRequest (req : EphemRequest) : Except String Unit :=
  if req.tasks = [] then .error msgNoTasks
  else if req.ephemType ≠ eciEphemType ∧ req.ephemType ≠ j2kEphemType then
    .error msgBadEphemType
  else
    match (match req.commonTimeGrid with
           | some g => validateGrid g
           | none => Except.ok ()) with
    | .error e => .error e
    | .ok _ => validateTasksFrom req.commonTimeGrid req.tasks

/-- `resolveTimeGrid` (lines 161-166): a per-task grid supersedes the common
grid. -/
def resolveTimeGrid (task : EphemTask) (req : EphemRequest) : Option EphemTimeGrid :=
  match task.timeGrid with
  | some g => some g
  | none => req.commonTimeGrid

/-- A grid with UTC fields unset and the given step variant; used by the
C7 and C10 theorems. -/
def mkGrid (ts te : ℚ) (step : Option TimeStepType) : EphemTimeGrid :=
  { timeStartUtc := none, timeStartDs50 := ts, timeEndUtc := none,
    timeEndDs50 := te, timeStepType := step }

/-- A well-formed one-task request whose common grid is `g`. -/
def oneTaskReq (ephemType : Int) (g : EphemTimeGrid) : EphemRequest :=
  { reqId := ("r"), ephemType := ephemType, commonTimeGrid := some g,
    tasks := [{ taskId := ("t"), timeGrid := none,
                sat := some { tleLn1 := ("l1"), tleLn2 := ("l2") } }] }

/-- `C7` (code bug): when the resolved grid carries a `KnownTimeStepPeriod`
string that the ISO-8601 duration parser rejects, `getKnownTimeStep` executes
`panic(err)` instead of failing the request with `InvalidArgument`; request
validation does not check parseability, so such a request reaches the panic
(witnessed by a concrete request that passes `validateAnalytEphemRequest`). -/
theorem getKnownTimeStep_unparseable_faults (durParse : String → Option ℚ)
    (g : EphemTimeGrid) (iso : String)
    (hstep : g.timeStepType = some (.knownPeriod iso))
    (hbad : durParse iso = none) :
    getKnownTimeStep durParse g = .fault ∧ chooseTimeStep durParse g = .fault ∧
      validateAnalytEphemRequest (oneTaskReq eciEphemType
        (mkGrid 0 0 (some (.knownPeriod iso)))) = .ok () := by
  have hv : getKnownTimeStep durParse g = .fault := by
    simp only [getKnownTimeStep, hstep, hbad]
  refine ⟨hv, ?_, ?_⟩
  · simp only [chooseTimeStep, isDynamicTimeStep, hstep]
    exact hv
  · simp [validateAnalytEphemRequest, validateGrid, validateTasksFrom, validateSatellite,
      getKnownTimeStepPeriodField, getKnownTimeStepDs50Field, eciEphemType, j2kEphemType,
      oneTaskReq, mkGrid]

/-- Witness for `getKnownTimeStep_unparseable_faults`, at a parser that
rejects the concrete string `not-a-duration`. -/
theorem getKnownTimeStep_unparseable_faults_witness :
    getKnownTimeStep (fun _ => none)
        (mkGrid 0 0 (some (.knownPeriod ("not-a-duration")))) = .fault ∧
      chooseTimeStep (fun _ => none)
        (mkGrid 0 0 (some (.knownPeriod ("not-a-duration")))) = .fault ∧
      validateAnalytEphemRequest (oneTaskReq eciEphemType
        (mkGrid 0 0 (some (.knownPeriod ("not-a-duration"))))) = .ok () :=
  getKnownTimeStep_unparseable_faults (fun _ => none) _ ("not-a-duration") rfl rfl

/-- `C10`: a resolved grid carrying no time-step variant at all is accepted by
request validation (conflict checks all pass vacuously), `isDynamicTimeStep`
is false, `getKnownTimeStep` falls through to `return 0`, and the native
wrapper sentinel substitution leaves a step of `0` unchanged (it is not the
dynamic sentinel `−1`). -/
theorem stepless_grid_accepted_step_zero (durParse : String → Option ℚ)
    (ts te : ℚ) (dynSS : ℚ) :
    validateAnalytEphemRequest (oneTaskReq j2kEphemType (mkGrid ts te none)) = .ok () ∧
      isDynamicTimeStep (mkGrid ts te none) = false ∧
      chooseTimeStep durParse (mkGrid ts te none) = .value 0 ∧
      effectiveStep dynSS 0 = 0 := by
  refine ⟨?_, rfl, ?_, ?_⟩
  · simp [validateAnalytEphemRequest, validateGrid, validateTasksFrom, validateSatellite,
      getKnownTimeStepPeriodField, getKnownTimeStepDs50Field, eciEphemType, j2kEphemType,
      oneTaskReq, mkGrid]
  · simp [chooseTimeStep, isDynamicTimeStep, getKnownTimeStep, mkGrid]
  · simp [effectiveStep]

/-! ### The ephemeris chunk pipeline (`runAnalytGenEphems`, `Sgp4GenEphems`)

The native shim `C.Sgp4GenEphems_shim` is an external oracle; one call's raw
outcome is a `ShimOut`: whether `malloc` succeeded, the return code `rc`, the
reported point count `got`, and the buffer contents (`buf`, read as
`got * 7` doubles; positions beyond the list model the uninitialized tail of
the `chunkSize * 7`-double allocation as zeros).  The chunk loop consumes one
`ShimOut` per iteration, paired with the message `getDllLastError()` would
return at that point. -/

structure EphemerisData where
  ds50Time : ℚ
  x : ℚ
  y : ℚ
  z : ℚ
  vx : ℚ
  vy : ℚ
  vz : ℚ
deriving DecidableEq, Repr

def msgFlatTooShort : String := "flat ephemerides array must have at least 7 elements"
def msgFlatNotMul7 : String := "flat ephemerides array length must be a multiple of 7"
def msgAllocFail : String :=
  "failed to generate ephemeris data: failed to allocate result buffer"

def genFailMsg (m : String) : String := ("failed to generate ephemeris data: ") ++ m

/-- Model of `flatEphemsToEphemDataArr` (lines 245-270): reject fewer than 7
elements, reject a length not divisible by 7, otherwise cut the flat array
into 7-field points in order. -/
def flatEphemsToEphemDataArr (flat : List ℚ) : Except String (List EphemerisData) :=
  if flat.length < 7 then .error msgFlatTooShort
  else if flat.length % 7 ≠ 0 then .error msgFlatNotMul7
  else
    .ok ((List.range (flat.length / 7)).map (fun i =>
      { ds50Time := flat.getD (i * 7) 0, x := flat.getD (i * 7 + 1) 0,
        y := flat.getD (i * 7 + 2) 0, z := flat.getD (i * 7 + 3) 0,
        vx := flat.getD (i * 7 + 4) 0, vy := flat.getD (i * 7 + 5) 0,
        vz := flat.getD (i * 7 + 6) 0 }))

structure EphemOut where
  taskId : String
  ephemData : List EphemerisData
  ephemPointsCount : Int
deriving DecidableEq, Repr

structure EphemResponse where
  reqId : String
  streamId : Int
  streamChunkId : Int
  result : EphemOut
deriving DecidableEq, Repr

/-- Model of `buildEphemResponse` (lines 318-333); `req.GetReqId()` and
`task.GetTaskId()` are passed in directly. -/
def buildEphemResponse (reqId taskId : String) (taskIdx : Nat) (flat : List ℚ)
    (count : Nat) (chunkID : Nat) : Except String EphemResponse :=
  match flatEphemsToEphemDataArr flat with
  | .error e => .error e
  | .ok arr =>
    .ok { reqId := reqId, streamId := (taskIdx : Int), streamChunkId := (chunkID : Int),
          result := { taskId := taskId, ephemData := arr,
                      ephemPointsCount := (count : Int) } }

structure ShimOut where
  allocOk : Bool
  rc : Int
  got : Nat
  buf : List ℚ
deriving DecidableEq, Repr

structure GenOut where
  flat : List ℚ
  n : Nat
  next : ℚ
  done : Bool
  errCode : Int
deriving DecidableEq, Repr

/-- `const eps = 1e-9 / 86400.0` (one nanosecond in days), as an exact
rational. -/
def epsDay : ℚ := (1 / 1000000000) / 86400

/-- Model of the Go wrapper `Sgp4GenEphems` (part of the dllcore file, lines
825-865): allocation failure is `-10`; `rc ≠ 0 ∧ n = 0` returns the raw `rc`
with `done = false` and `nextStart = 0` (the zero values of the named
returns); otherwise the buffer's first `n*7` doubles become the flat array,
and on `n > 0` the next start is the last emitted time plus `eps`, with
`done = (n < chunkSize) || (nextStart ≥ endTime)` and `errCode = 0` (the
named return `errCode` is never assigned on the success path, so a nonzero
`rc` with `n > 0` is reported as `0`). -/
def sgp4GenEphems (shim : ShimOut) (startTime endTime : ℚ) (chunkSize : Nat) : GenOut :=
  if shim.allocOk = false then { flat := [], n := 0, next := 0, done := false, errCode := -10 }
  else if shim.rc ≠ 0 ∧ shim.got = 0 then
    { flat := [], n := 0, next := 0, done := false, errCode := shim.rc }
  else
    let n := shim.got
    let flat := (List.range (n * 7)).map (fun i => shim.buf.getD i 0)
    if n = 0 then { flat := flat, n := 0, next := startTime, done := true, errCode := 0 }
    else
      let lastT := flat.getD ((n - 1) * 7) 0
      let nextStart := lastT + epsDay
      { flat := flat, n := n, next := nextStart,
        done := decide (n < chunkSize) || decide (nextStart ≥ endTime), errCode := 0 }

/-- Result of running the chunk loop of `runAnalytGenEphems` until `done`,
until an abort, or until the supplied oracle runs out (`incomplete` — the Go
loop would keep calling the native generator).  `sent` is the list of chunks
handed to the result channel, in order. -/
inductive LoopOutcome where
  | completed (sent : List EphemResponse)
  | failed (sent : List EphemResponse) (msg : String)
  | incomplete (sent : List EphemResponse)
deriving DecidableEq, Repr

/-- Model of the `for` loop of `runAnalytGenEphems` (lines 214-241), driven by
one `(ShimOut, lastError)` oracle entry per native call.  Client cancellation
is not modelled (`C9` conditions on a successfully completed stream). -/
def chunkLoop (reqId taskId : String) (taskIdx : Nat) (endTime : ℚ) (chunkSize : Nat) :
    List (ShimOut × String) → ℚ → Nat → LoopOutcome
  | [], _, _ => .incomplete []
  | (shim, lastErr) :: rest, timeStart, chunkID =>
    let g := sgp4GenEphems shim timeStart endTime chunkSize
    if g.errCode = -10 then .failed [] msgAllocFail
    else if g.errCode ≠ 0 ∧ g.n = 0 ∧ lastErr ≠ ("") then .failed [] (genFailMsg lastErr)
    else if 0 < g.n then
      match buildEphemResponse reqId taskId taskIdx g.flat g.n chunkID with
      | .error e => .failed [] e
      | .ok resp =>
        if g.done then .completed [resp]
        else
          match chunkLoop reqId taskId taskIdx endTime chunkSize rest g.next (chunkID + 1) with
          | .completed cs => .completed (resp :: cs)
          | .failed cs m => .failed (resp :: cs) m
          | .incomplete cs => .incomplete (resp :: cs)
    else
      if g.done then .completed []
      else chunkLoop reqId taskId taskIdx endTime chunkSize rest g.next chunkID

/-- `C6` (code bug): a native return with `rc ≠ 0` and `n = 0` whose fetched
last-error message is empty does NOT abort the task — the `if msg != ""`
guard falls through and the loop continues (with `timeStart` reset to the
zero-valued `next`), here exhausting the oracle still running; with a
non-empty message the same return aborts, as the claim demands for every
message. -/
theorem genEphems_error_empty_msg_no_abort :
    chunkLoop ("r") ("t") 0 100 5 [(⟨true, 5, 0, []⟩, (""))] 0 0 =
        .incomplete [] ∧
      chunkLoop ("r") ("t") 0 100 5 [(⟨true, 5, 0, []⟩, ("engine error"))] 0 0 =
        .failed [] (genFailMsg ("engine error")) :=
  ⟨rfl, rfl⟩

theorem flatEphems_ok_length {flat : List ℚ} {arr : List EphemerisData}
    (h : flatEphemsToEphemDataArr flat = .ok arr) : arr.length = flat.length / 7 := by
  unfold flatEphemsToEphemDataArr at h
  split_ifs at h
  cases h
  simp

theorem buildEphemResponse_ok {reqId taskId : String} {taskIdx : Nat} {flat : List ℚ}
    {count chunkID : Nat} {resp : EphemResponse}
    (h : buildEphemResponse reqId taskId taskIdx flat count chunkID = .ok resp) :
    resp.streamChunkId = (chunkID : Int) ∧ resp.result.ephemPointsCount = (count : Int) ∧
      resp.result.ephemData.length = flat.length / 7 := by
  unfold buildEphemResponse at h
  cases hf : flatEphemsToEphemDataArr flat with
  | error e => rw [hf] at h; cases h
  | ok arr =>
    rw [hf] at h
    cases h
    exact ⟨rfl, rfl, flatEphems_ok_length hf⟩

theorem sgp4GenEphems_flat_length (shim : ShimOut) (st et : ℚ) (cs : Nat) :
    (sgp4GenEphems shim st et cs).flat.length = 7 * (sgp4GenEphems shim st et cs).n := by
  by_cases ha : shim.allocOk = false
  · simp [sgp4GenEphems, ha]
  · by_cases hb : shim.rc ≠ 0 ∧ shim.got = 0
    · simp [sgp4GenEphems, ha, hb]
    · by_cases hg : shim.got = 0
      · have hrc : shim.rc = 0 := by
          by_contra hrc
          exact hb ⟨hrc, hg⟩
        simp [sgp4GenEphems, ha, hb, hg, hrc]
      · simp [sgp4GenEphems, ha, hb, hg, Nat.mul_comm]

theorem chunkLoop_aux (reqId taskId : String) (taskIdx : Nat) (endTime : ℚ)
    (chunkSize : Nat) :
    ∀ (oracle : List (ShimOut × String)) (timeStart : ℚ) (k : Nat)
      (chunks : List EphemResponse),
      chunkLoop reqId taskId taskIdx endTime chunkSize oracle timeStart k =
        .completed chunks →
      (∀ i, i < chunks.length →
        chunks[i]?.map EphemResponse.streamChunkId = some ((k + i : Nat) : Int)) ∧
        ∀ c ∈ chunks, c.result.ephemPointsCount = (c.result.ephemData.length : Int) := by
  intro oracle
  induction oracle with
  | nil =>
    intro timeStart k chunks h
    simp [chunkLoop] at h
  | cons entry rest ih =>
    obtain ⟨shim, lastErr⟩ := entry
    intro timeStart k chunks h
    simp only [chunkLoop] at h
    by_cases h10 : (sgp4GenEphems shim timeStart endTime chunkSize).errCode = -10
    · rw [if_pos h10] at h
      cases h
    rw [if_neg h10] at h
    by_cases herr : (sgp4GenEphems shim timeStart endTime chunkSize).errCode ≠ 0 ∧
        (sgp4GenEphems shim timeStart endTime chunkSize).n = 0 ∧ lastErr ≠ ("")
    · rw [if_pos herr] at h
      cases h
    rw [if_neg herr] at h
    by_cases hn : 0 < (sgp4GenEphems shim timeStart endTime chunkSize).n
    · rw [if_pos hn] at h
      cases hb : buildEphemResponse reqId taskId taskIdx
          (sgp4GenEphems shim timeStart endTime chunkSize).flat
          (sgp4GenEphems shim timeStart endTime chunkSize).n k with
      | error e =>
        simp only [hb] at h
        cases h
      | ok resp =>
        simp only [hb] at h
        obtain ⟨hid, hcnt, hlen⟩ := buildEphemResponse_ok hb
        have hcount : resp.result.ephemPointsCount =
            (resp.result.ephemData.length : Int) := by
          rw [hcnt, hlen, sgp4GenEphems_flat_length,
            Nat.mul_div_cancel_left _ (by norm_num : 0 < 7)]
        by_cases hd : (sgp4GenEphems shim timeStart endTime chunkSize).done = true
        · rw [if_pos hd] at h
          injection h with h2
          subst h2
          refine ⟨?_, ?_⟩
          · intro i hi
            simp only [List.length_singleton] at hi
            have hz : i = 0 := by omega
            subst hz
            simp [hid]
          · intro c hc
            simp only [List.mem_singleton] at hc
            subst hc
            exact hcount
        · rw [if_neg hd] at h
          cases hrec : chunkLoop reqId taskId taskIdx endTime chunkSize rest
              (sgp4GenEphems shim timeStart endTime chunkSize).next (k + 1) with
          | completed cs =>
            simp only [hrec] at h
            injection h with h2
            subst h2
            obtain ⟨ihid, ihcnt⟩ := ih _ (k + 1) cs hrec
            refine ⟨?_, ?_⟩
            · intro i hi
              cases i with
              | zero => simp [hid]
              | succ j =>
                simp only [List.getElem?_cons_succ]
                rw [show ((k + (j + 1) : Nat) : Int) = ((k + 1 + j : Nat) : Int) from
                  by omega]
                exact ihid j (by simpa using hi)
            · intro c hc
              rcases List.mem_cons.1 hc with hc0 | hcs
              · subst hc0
                exact hcount
              · exact ihcnt c hcs
          | failed cs m =>
            simp only [hrec] at h
            cases h
          | incomplete cs =>
            simp only [hrec] at h
            cases h
    · rw [if_neg hn] at h
      by_cases hd : (sgp4GenEphems shim timeStart endTime chunkSize).done = true
      · rw [if_pos hd] at h
        injection h with h2
        subst h2
        refine ⟨?_, ?_⟩
        · intro i hi
          simp at hi
        · intro c hc
          simp at hc
      · rw [if_neg hd] at h
        exact ih _ k chunks h

/-- The chunk list delivered by the witness oracle of
`chunkLoop_ids_and_counts_witness`. -/
def wChunks : List EphemResponse :=
  [⟨("r"), 0, 0, ⟨("t"), [⟨1, 0, 0, 0, 0, 0, 0⟩, ⟨2, 0, 0, 0, 0, 0, 0⟩], 2⟩⟩,
   ⟨("r"), 0, 1, ⟨("t"), [⟨3, 0, 0, 0, 0, 0, 0⟩], 1⟩⟩]

/-- `C9`: whenever the chunk loop of a task completes successfully, the
delivered chunks carry `streamChunkId` values exactly `0, 1, …, K−1` in
order, and each chunk's declared `EphemPointsCount` equals the number of
ephemeris points it actually carries. -/
theorem chunkLoop_ids_and_counts (oracle : List (ShimOut × String))
    (reqId taskId : String) (taskIdx : Nat) (endTime : ℚ) (chunkSize : Nat)
    (timeStart : ℚ) (chunks : List EphemResponse)
    (h : chunkLoop reqId taskId taskIdx endTime chunkSize oracle timeStart 0 =
      .completed chunks) :
    chunks.map EphemResponse.streamChunkId =
        (List.range chunks.length).map Int.ofNat ∧
      ∀ c ∈ chunks, c.result.ephemPointsCount = (c.result.ephemData.length : Int) := by
  obtain ⟨hid, hcnt⟩ := chunkLoop_aux reqId taskId taskIdx endTime chunkSize
    oracle timeStart 0 chunks h
  refine ⟨?_, hcnt⟩
  apply List.ext_getElem?
  intro i
  rw [List.getElem?_map, List.getElem?_map]
  by_cases hi : i < chunks.length
  · rw [List.getElem?_range hi]
    simpa using hid i hi
  · have hge : chunks.length ≤ i := by omega
    rw [List.getElem?_eq_none hge, List.getElem?_eq_none (by simpa using hge)]
    rfl

/-- Witness for `chunkLoop_ids_and_counts`: a two-call oracle (a full chunk of
2 points, then a final chunk of 1 point) completes with chunk ids `[0, 1]` and
matching declared counts. -/
theorem chunkLoop_ids_and_counts_witness :
    chunkLoop ("r") ("t") 0 100 2
        [(⟨true, 0, 2, [1, 0, 0, 0, 0, 0, 0, 2, 0, 0, 0, 0, 0, 0]⟩, ("")),
         (⟨true, 0, 1, [3, 0, 0, 0, 0, 0, 0]⟩, (""))] 0 0 =
      .completed wChunks ∧
      wChunks.map EphemResponse.streamChunkId =
        (List.range wChunks.length).map Int.ofNat ∧
      ∀ c ∈ wChunks, c.result.ephemPointsCount = (c.result.ephemData.length : Int) := by
  have hrun : chunkLoop ("r") ("t") 0 100 2
      [(⟨true, 0, 2, [1, 0, 0, 0, 0, 0, 0, 2, 0, 0, 0, 0, 0, 0]⟩, ("")),
       (⟨true, 0, 1, [3, 0, 0, 0, 0, 0, 0]⟩, (""))] 0 0 = .completed wChunks := by
    norm_num [chunkLoop, sgp4GenEphems, buildEphemResponse, flatEphemsToEphemDataArr,
      epsDay, wChunks, List.range_succ, List.getD]
  exact ⟨hrun, chunkLoop_ids_and_counts _ ("r") ("t") 0 100 2 0 wChunks hrun⟩

/-- `C8` counterexample: the empty flat array (`L = 0`, so `L mod 7 = 0`) is
rejected with the `at least 7 elements` error instead of producing zero
points, refuting the claim's "including L = 0" clause. -/
theorem flatEphems_empty_fails :
    flatEphemsToEphemDataArr ([] : List ℚ) = .error msgFlatTooShort := rfl

/-- `C8` (amended): flat-array conversion maps every flat sequence of length
`L ≥ 7` with `L mod 7 = 0` to exactly `L/7` ephemeris points in field order
`(t_ds50, x, y, z, vx, vy, vz)`, and fails for every other length — both when
`L mod 7 ≠ 0` and when `L < 7`, which includes `L = 0`. -/
theorem flatEphems_amended (xs : List ℚ) :
    (7 ≤ xs.length → xs.length % 7 = 0 →
      ∃ arr, flatEphemsToEphemDataArr xs = .ok arr ∧ arr.length = xs.length / 7 ∧
        ∀ i, i < xs.length / 7 → arr[i]? =
          some { ds50Time := xs.getD (i * 7) 0, x := xs.getD (i * 7 + 1) 0,
                 y := xs.getD (i * 7 + 2) 0, z := xs.getD (i * 7 + 3) 0,
                 vx := xs.getD (i * 7 + 4) 0, vy := xs.getD (i * 7 + 5) 0,
                 vz := xs.getD (i * 7 + 6) 0 }) ∧
      (xs.length < 7 ∨ xs.length % 7 ≠ 0 →
        ∃ m, flatEphemsToEphemDataArr xs = .error m) := by
  constructor
  · intro h7 hmod
    refine ⟨(List.range (xs.length / 7)).map (fun i =>
      { ds50Time := xs.getD (i * 7) 0, x := xs.getD (i * 7 + 1) 0,
        y := xs.getD (i * 7 + 2) 0, z := xs.getD (i * 7 + 3) 0,
        vx := xs.getD (i * 7 + 4) 0, vy := xs.getD (i * 7 + 5) 0,
        vz := xs.getD (i * 7 + 6) 0 }), ?_, ?_, ?_⟩
    · unfold flatEphemsToEphemDataArr
      rw [if_neg (by omega), if_neg (by omega)]
    · simp
    · intro i hi
      rw [List.getElem?_map, List.getElem?_range hi]
      rfl
  · intro h
    unfold flatEphemsToEphemDataArr
    rcases h with h | h
    · rw [if_pos h]
      exact ⟨_, rfl⟩
    · by_cases h7 : xs.length < 7
      · rw [if_pos h7]
        exact ⟨_, rfl⟩
      · rw [if_neg h7, if_pos h]
        exact ⟨_, rfl⟩

/-- Witness for `flatEphems_amended` at the 7-element sequence
`[1, 2, 3, 4, 5, 6, 7]`: one point with the fields in order. -/
theorem flatEphems_amended_witness :
    ∃ arr, flatEphemsToEphemDataArr ([1, 2, 3, 4, 5, 6, 7] : List ℚ) = .ok arr ∧
      arr.length = ([1, 2, 3, 4, 5, 6, 7] : List ℚ).length / 7 ∧
      ∀ i, i < ([1, 2, 3, 4, 5, 6, 7] : List ℚ).length / 7 → arr[i]? =
        some { ds50Time := ([1, 2, 3, 4, 5, 6, 7] : List ℚ).getD (i * 7) 0,
               x := ([1, 2, 3, 4, 5, 6, 7] : List ℚ).getD (i * 7 + 1) 0,
               y := ([1, 2, 3, 4, 5, 6, 7] : List ℚ).getD (i * 7 + 2) 0,
               z := ([1, 2, 3, 4, 5, 6, 7] : List ℚ).getD (i * 7 + 3) 0,
               vx := ([1, 2, 3, 4, 5, 6, 7] : List ℚ).getD (i * 7 + 4) 0,
               vy := ([1, 2, 3, 4, 5, 6, 7] : List ℚ).getD (i * 7 + 5) 0,
               vz := ([1, 2, 3, 4, 5, 6, 7] : List ℚ).getD (i * 7 + 6) 0 } :=
  (flatEphems_amended ([1, 2, 3, 4, 5, 6, 7] : List ℚ)).1 (by decide) (by decide)

end XProp
